import Mathlib

/-!
# Verification of allantools (Allan deviation tools)

Shallow embedding of `src/allantools/allantools.py` over exact rational
arithmetic.  Measurement series are `List ℚ`, the sample rate is `ℚ`, and the
floating-point square root `np.sqrt` is modelled as an abstract function
`sq : ℚ → ℚ` passed to every definition that takes a square root (theorems
that need a concrete fact about it, such as `sq 0 = 0`, state it as a
hypothesis).  Fallible code (`tau_m` raising `RuntimeError` on `rate == 0`,
`totdev_phase` failing on arrays shorter than 2, the `assert` in
`three_cornered_hat_phase`) is modelled with `Except String`.  numpy slicing
`a[start::step]` is modelled by `List.drop` followed by `sliceStep`,
`a[a:b]` by `drop`/`take`, and numpy boolean-mask selection by `applyMask`.
Intermediate variables of the source (`n`, `s`, `e`, `v`, the extended array
of `totdev_phase`, …) are given named definitions so that theorems can speak
about them; each `calc_*`/`*_phase` definition assembles them exactly as the
source line order does.
-/

namespace AllanTools

/-- The result shape shared by all estimators: `(tau_used, dev, deverr, ns)`,
four parallel arrays (`ns` is stored as rationals, matching the float arrays
of the source). -/
abbrev Result := List ℚ × List ℚ × List ℚ × List ℚ

/-- numpy slicing `a[::step]`: the elements of `l` at indices `0, step, 2*step, …`
(in order).  `a[start::step]` is `sliceStep (l.drop start) step`. -/
def sliceStep (l : List ℚ) (step : ℕ) : List ℚ :=
  ((List.range l.length).filter fun i => i % step = 0).map fun i => l.getD i 0

/-- `np.cumsum`: running prefix sums, entry `i` is the sum of the first `i+1`
input entries. -/
def cumsum (l : List ℚ) : List ℚ :=
  (List.range l.length).map fun i => (l.take (i + 1)).sum

/-- Elementwise combination of three arrays (numpy broadcasting of
`d2[:n] - 2*d1[:n] + d0[:n]`-style expressions); the result has the length of
the shortest argument. -/
def zipWith3 (f : ℚ → ℚ → ℚ → ℚ) : List ℚ → List ℚ → List ℚ → List ℚ
  | a :: as, b :: bs, c :: cs => f a b c :: zipWith3 f as bs cs
  | _, _, _ => []

/-- Elementwise combination of four arrays. -/
def zipWith4 (f : ℚ → ℚ → ℚ → ℚ → ℚ) : List ℚ → List ℚ → List ℚ → List ℚ → List ℚ
  | a :: as, b :: bs, c :: cs, d :: ds => f a b c d :: zipWith4 f as bs cs ds
  | _, _, _, _ => []

/-- numpy boolean-mask selection `a[mask]`: keep the elements of the second
list at the positions where the mask is `true`. -/
def applyMask : List Bool → List ℚ → List ℚ
  | b :: bs, x :: xs => if b then x :: applyMask bs xs else applyMask bs xs
  | _, _ => []

/-- `remove_small_ns(taus, devs, deverrs, ns)`: if n is small (`== 1`), reject
the result; the boolean mask `ns > 1` is applied to all four parallel arrays. -/
def remove_small_ns (taus devs deverrs ns : List ℚ) : Result :=
  let ns_big_enough := ns.map fun v => decide (1 < v)
  (applyMask ns_big_enough taus, applyMask ns_big_enough devs,
   applyMask ns_big_enough deverrs, applyMask ns_big_enough ns)

/-- Insert an integer into a strictly-sorted duplicate-free list, keeping it
strictly sorted and duplicate-free (building block for `np.unique`). -/
def insertSortedUnique (x : ℤ) : List ℤ → List ℤ
  | [] => [x]
  | y :: ys =>
    if x < y then x :: y :: ys
    else if x = y then y :: ys
    else y :: insertSortedUnique x ys

/-- `np.unique`: sort ascending and remove duplicates. -/
def npUnique (l : List ℤ) : List ℤ := l.foldr insertSortedUnique []

/-- `tau_m(data, rate, taus)`: pre-processing of the tau-list given by the user.
Raises (`Except.error`) when `rate == 0`; otherwise keeps the requested taus
with `taus < (1/rate)*len(data)` and `taus > 0`, takes `m = floor(tau*rate)`,
drops `m == 0`, sorts and deduplicates (`np.unique`), and returns
`(data, m, m/rate)`. -/
def tau_m (data : List ℚ) (rate : ℚ) (taus : List ℚ) :
    Except String (List ℚ × List ℤ × List ℚ) :=
  if rate = 0 then .error "Warning! rate==0"
  else
    let taus_valid := taus.filter fun t =>
      decide (t < (1 / rate) * (data.length : ℚ)) && decide (0 < t)
    let m0 := taus_valid.map fun t => ⌊t * rate⌋
    let m1 := m0.filter fun mi => decide (mi ≠ 0)
    let m := npUnique m1
    let taus2 := m.map fun mi => (mi : ℚ) / rate
    .ok (data, m, taus2)

/-- `frequency2phase(freqdata, rate)`: integrate fractional frequency data and
output phase data (`np.cumsum(freqdata) * dt` with `dt = 1/rate` and a 0
inserted in front). -/
def frequency2phase (freqdata : List ℚ) (rate : ℚ) : List ℚ :=
  0 :: (cumsum freqdata).map fun v => v * (1 / rate)

/-! ## ADEV / OADEV -/

/-- The sample count of `calc_adev_phase`:
`n = min(len(data[::stride]), len(data[mj::stride]), len(data[2*mj::stride]))`,
defensively set to 1 when 0. -/
def calc_adev_n (data : List ℚ) (mj : ℤ) (stride : ℕ) : ℕ :=
  let n := min (min (sliceStep data stride).length
      (sliceStep (data.drop mj.toNat) stride).length)
    (sliceStep (data.drop (2 * mj).toNat) stride).length
  if n = 0 then 1 else n

/-- The accumulated sum of squares of `calc_adev_phase`:
`s = sum(v*v)` with `v = d2[:n] - 2*d1[:n] + d0[:n]` (using the defensive `n`). -/
def calc_adev_s (data : List ℚ) (mj : ℤ) (stride : ℕ) : ℚ :=
  let n := calc_adev_n data mj stride
  let d2 := sliceStep (data.drop (2 * mj).toNat) stride
  let d1 := sliceStep (data.drop mj.toNat) stride
  let d0 := sliceStep data stride
  let v_arr := zipWith3 (fun a b c => a - 2 * b + c) (d2.take n) (d1.take n) (d0.take n)
  (v_arr.map fun x => x * x).sum

/-- `calc_adev_phase(data, rate, mj, stride)`:
`dev = sqrt(s/(2*n))/mj*rate`, `deverr = dev/sqrt(n)`; returns `(dev, deverr, n)`. -/
def calc_adev_phase (sq : ℚ → ℚ) (data : List ℚ) (rate : ℚ) (mj : ℤ) (stride : ℕ) :
    ℚ × ℚ × ℕ :=
  let n := calc_adev_n data mj stride
  let s := calc_adev_s data mj stride
  let dev := sq (s / (2 * (n : ℚ))) / (mj : ℚ) * rate
  (dev, dev / sq (n : ℚ), n)

/-- `adev_phase(data, rate, taus)`: Allan deviation of phase data; loops
`calc_adev_phase` with `stride = mj` over the selected `m` values, then
filters through `remove_small_ns`. -/
def adev_phase (sq : ℚ → ℚ) (data : List ℚ) (rate : ℚ) (taus : List ℚ) :
    Except String Result :=
  (tau_m data rate taus).map fun (data, m, taus_used) =>
    let rs := m.map fun mj => calc_adev_phase sq data rate mj mj.toNat
    remove_small_ns taus_used (rs.map fun r => r.1) (rs.map fun r => r.2.1)
      (rs.map fun r => ((r.2.2 : ℕ) : ℚ))

/-- `adev(data, rate, taus)`: Allan deviation of fractional-frequency data,
a thin wrapper converting through `frequency2phase`. -/
def adev (sq : ℚ → ℚ) (data : List ℚ) (rate : ℚ) (taus : List ℚ) :
    Except String Result :=
  adev_phase sq (frequency2phase data rate) rate taus

/-- `oadev_phase`: overlapping Allan deviation of phase data
(`calc_adev_phase` with `stride = 1`). -/
def oadev_phase (sq : ℚ → ℚ) (data : List ℚ) (rate : ℚ) (taus : List ℚ) :
    Except String Result :=
  (tau_m data rate taus).map fun (data, m, taus_used) =>
    let rs := m.map fun mj => calc_adev_phase sq data rate mj 1
    remove_small_ns taus_used (rs.map fun r => r.1) (rs.map fun r => r.2.1)
      (rs.map fun r => ((r.2.2 : ℕ) : ℚ))

/-- `oadev`: overlapping Allan deviation of fractional-frequency data. -/
def oadev (sq : ℚ → ℚ) (freqdata : List ℚ) (rate : ℚ) (taus : List ℚ) :
    Except String Result :=
  oadev_phase sq (frequency2phase freqdata rate) rate taus

/-! ## HDEV / OHDEV -/

/-- The raw window count of `calc_hdev_phase`, before the defensive reset:
`n = min(len(data[::stride]), len(data[mj::stride]), len(data[2mj::stride]),
len(data[3mj::stride]))`. -/
def calc_hdev_n0 (data : List ℚ) (mj : ℤ) (stride : ℕ) : ℕ :=
  min (min (min (sliceStep data stride).length
        (sliceStep (data.drop mj.toNat) stride).length)
      (sliceStep (data.drop (2 * mj).toNat) stride).length)
    (sliceStep (data.drop (3 * mj).toNat) stride).length

/-- The sum of squares of `calc_hdev_phase`: `s = sum(v*v)` with
`v = d3[:n] - 3*d2[:n] + 3*d1[:n] - d0[:n]` taken at the raw `n`
(the source computes `v` before the `if n == 0: n = 1` reset). -/
def calc_hdev_s (data : List ℚ) (mj : ℤ) (stride : ℕ) : ℚ :=
  let n := calc_hdev_n0 data mj stride
  let d3 := sliceStep (data.drop (3 * mj).toNat) stride
  let d2 := sliceStep (data.drop (2 * mj).toNat) stride
  let d1 := sliceStep (data.drop mj.toNat) stride
  let d0 := sliceStep data stride
  let v_arr := zipWith4 (fun a b c d => a - 3 * b + 3 * c - d)
    (d3.take n) (d2.take n) (d1.take n) (d0.take n)
  (v_arr.map fun x => x * x).sum

/-- The defensive sample count of `calc_hdev_phase` (`if n == 0: n = 1`). -/
def calc_hdev_n (data : List ℚ) (mj : ℤ) (stride : ℕ) : ℕ :=
  let n := calc_hdev_n0 data mj stride
  if n = 0 then 1 else n

/-- `calc_hdev_phase(data, rate, mj, stride)`: Hadamard deviation term,
`h = sqrt(s/6/n) / (tau0*mj)` with `tau0 = 1/rate`, `e = h/sqrt(n)`;
returns `(h, e, n)`. -/
def calc_hdev_phase (sq : ℚ → ℚ) (data : List ℚ) (rate : ℚ) (mj : ℤ) (stride : ℕ) :
    ℚ × ℚ × ℕ :=
  let tau0 := 1 / rate
  let n := calc_hdev_n data mj stride
  let s := calc_hdev_s data mj stride
  let h := sq (s / 6 / (n : ℚ)) / (tau0 * (mj : ℚ))
  (h, h / sq (n : ℚ), n)

/-- `hdev_phase`: Hadamard deviation of phase data (`stride = mj`). -/
def hdev_phase (sq : ℚ → ℚ) (data : List ℚ) (rate : ℚ) (taus : List ℚ) :
    Except String Result :=
  (tau_m data rate taus).map fun (data, m, taus_used) =>
    let rs := m.map fun mj => calc_hdev_phase sq data rate mj mj.toNat
    remove_small_ns taus_used (rs.map fun r => r.1) (rs.map fun r => r.2.1)
      (rs.map fun r => ((r.2.2 : ℕ) : ℚ))

/-- `hdev`: Hadamard deviation of fractional-frequency data. -/
def hdev (sq : ℚ → ℚ) (freqdata : List ℚ) (rate : ℚ) (taus : List ℚ) :
    Except String Result :=
  hdev_phase sq (frequency2phase freqdata rate) rate taus

/-- `ohdev_phase`: overlapping Hadamard deviation of phase data (`stride = 1`). -/
def ohdev_phase (sq : ℚ → ℚ) (data : List ℚ) (rate : ℚ) (taus : List ℚ) :
    Except String Result :=
  (tau_m data rate taus).map fun (data, m, taus_used) =>
    let rs := m.map fun mj => calc_hdev_phase sq data rate mj 1
    remove_small_ns taus_used (rs.map fun r => r.1) (rs.map fun r => r.2.1)
      (rs.map fun r => ((r.2.2 : ℕ) : ℚ))

/-- `ohdev`: overlapping Hadamard deviation of fractional-frequency data. -/
def ohdev (sq : ℚ → ℚ) (freqdata : List ℚ) (rate : ℚ) (taus : List ℚ) :
    Except String Result :=
  ohdev_phase sq (frequency2phase freqdata rate) rate taus

/-! ## MDEV / TDEV -/

/-- The sample count of one `mdev_phase` iteration: `n = e + 1` where
`e = min(len(data[0:]), len(data[m:]), len(data[2m:]), len(data[3m:]))`. -/
def mdev_n (data : List ℚ) (m : ℤ) : ℕ :=
  let e := min (min (min data.length (data.drop m.toNat).length)
      (data.drop (2 * m).toNat).length)
    (data.drop (3 * m).toNat).length
  e + 1

/-- The accumulated (un-normalized) sum of one `mdev_phase` iteration:
`v = sum(data[2m:3m][:e'] - 2*data[m:2m][:e'] + data[0:m][:e'])` with
`e' = min` of the three window lengths, `s = v*v`, then
`s + sum(v_arr * v_arr)` where
`v_arr = v + cumsum(d3[:e] - 3*d2[:e] + 3*d1[:e] - d0[:e])`. -/
def mdev_ssum (data : List ℚ) (m : ℤ) : ℚ :=
  let d0 := data.take m.toNat
  let d1 := (data.drop m.toNat).take m.toNat
  let d2 := (data.drop (2 * m).toNat).take m.toNat
  let e1 := min (min d0.length d1.length) d2.length
  let v := (zipWith3 (fun c b a => c - 2 * b + a) (d2.take e1) (d1.take e1) (d0.take e1)).sum
  let s := v * v
  let d3 := data.drop (3 * m).toNat
  let c2 := data.drop (2 * m).toNat
  let c1 := data.drop m.toNat
  let c0 := data
  let e := min (min (min c0.length c1.length) c2.length) d3.length
  let v_arr := (cumsum (zipWith4 (fun a b c d => a - 3 * b + 3 * c - d)
      (d3.take e) (c2.take e) (c1.take e) (c0.take e))).map fun w => v + w
  s + (v_arr.map fun x => x * x).sum

/-- `mdev_phase(data, rate, taus)`: modified Allan deviation of phase data.
For each `m` (with `tau = taus_used[idx]`):
`md = sqrt(ssum / (2 * m^2 * tau^2 * n))`, `mderr = md/sqrt(n)`. -/
def mdev_phase (sq : ℚ → ℚ) (data : List ℚ) (rate : ℚ) (taus : List ℚ) :
    Except String Result :=
  (tau_m data rate taus).map fun (data, ms, taus_used) =>
    let rs := (ms.zip taus_used).map fun (m, tau) =>
      let n := mdev_n data m
      let s := sq (mdev_ssum data m / (2 * (m : ℚ) * (m : ℚ) * tau * tau * (n : ℚ)))
      (s, s / sq (n : ℚ), n)
    remove_small_ns taus_used (rs.map fun r => r.1) (rs.map fun r => r.2.1)
      (rs.map fun r => ((r.2.2 : ℕ) : ℚ))

/-- `mdev`: modified Allan deviation of fractional-frequency data. -/
def mdev (sq : ℚ → ℚ) (freqdata : List ℚ) (rate : ℚ) (taus : List ℚ) :
    Except String Result :=
  mdev_phase sq (frequency2phase freqdata rate) rate taus

/-- `tdev_phase(phase, rate, taus)`: time deviation of phase data,
`td = taus2 * md / sqrt(3)`, `tde = td / sqrt(ns)` on the `mdev_phase` output. -/
def tdev_phase (sq : ℚ → ℚ) (phase : List ℚ) (rate : ℚ) (taus : List ℚ) :
    Except String Result :=
  (mdev_phase sq phase rate taus).map fun (taus2, md, _mde, ns) =>
    let td := (taus2.zip md).map fun (t, d) => t * d / sq 3
    let tde := (td.zip ns).map fun (d, n) => d / sq n
    (taus2, td, tde, ns)

/-- `tdev`: time deviation of fractional-frequency data. -/
def tdev (sq : ℚ → ℚ) (data : List ℚ) (rate : ℚ) (taus : List ℚ) :
    Except String Result :=
  tdev_phase sq (frequency2phase data rate) rate taus

/-! ## TOTDEV -/

/-- The reflection-extended array of `totdev_phase`:
`x1 = (2*data[0] - data[1:-1])[::-1]`, `x2 = 2*data[-1] - data[1:-1][::-1]`,
`x = x1 ++ data ++ x2` (length `3n - 4`). -/
def totdev_x (data : List ℚ) : List ℚ :=
  let middle := (data.drop 1).dropLast
  let x1 := (middle.map fun v => 2 * data.getD 0 0 - v).reverse
  let x2 := middle.reverse.map fun v => 2 * data.getD (data.length - 1) 0 - v
  x1 ++ data ++ x2

/-- The window count `e` of one `totdev_phase` iteration:
`e = min(len(x[mid+1:]), len(x[mid+mj+1:]), len(x[mid-mj+1:]))`
(`mid = n - 2`; `mid - mj + 1 ≥ 0` whenever `mj < n`, which `tau_m`
guarantees). -/
def totdev_e (data : List ℚ) (mj : ℤ) : ℕ :=
  let x := totdev_x data
  let mid := data.length - 2
  min (min (x.drop (mid + 1)).length (x.drop (mid + mj.toNat + 1)).length)
    (x.drop (mid + 1 - mj.toNat)).length

/-- The pre-sqrt deviation of one `totdev_phase` iteration:
`dev = sum(v_arr[:mid] * v_arr[:mid]) / (2 * (mj/rate)^2 * (n-2))` where
`v_arr = d1n[:e] - 2*d0[:e] + d1[:e]`. -/
def totdev_var (data : List ℚ) (rate : ℚ) (mj : ℤ) : ℚ :=
  let x := totdev_x data
  let mid := data.length - 2
  let e := totdev_e data mj
  let d0 := x.drop (mid + 1)
  let d1 := x.drop (mid + mj.toNat + 1)
  let d1n := x.drop (mid + 1 - mj.toNat)
  let v_arr := zipWith3 (fun a b c => a - 2 * b + c) (d1n.take e) (d0.take e) (d1.take e)
  let w := v_arr.take mid
  ((w.map fun v => v * v).sum) /
    (2 * ((mj : ℚ) / rate) ^ 2 * ((data.length : ℚ) - 2))

/-- `totdev_phase(data, rate, taus)`: total deviation of phase data.  Building
the reflected array needs `len(data) ≥ 2` (numpy raises on a negative
dimension otherwise).  For each `mj`: `dev = sqrt(totdev_var)`,
`deverr = dev/sqrt(mid)`, `ns = mid`. -/
def totdev_phase (sq : ℚ → ℚ) (data : List ℚ) (rate : ℚ) (taus : List ℚ) :
    Except String Result := do
  let (data, m, taus_used) ← tau_m data rate taus
  if data.length < 2 then .error "negative dimensions are not allowed"
  else
    let mid := data.length - 2
    let rs := m.map fun mj =>
      let dev := sq (totdev_var data rate mj)
      (dev, dev / sq (mid : ℚ), mid)
    .ok (remove_small_ns taus_used (rs.map fun r => r.1) (rs.map fun r => r.2.1)
      (rs.map fun r => ((r.2.2 : ℕ) : ℚ)))

/-- `totdev`: total deviation of fractional-frequency data. -/
def totdev (sq : ℚ → ℚ) (freqdata : List ℚ) (rate : ℚ) (taus : List ℚ) :
    Except String Result :=
  totdev_phase sq (frequency2phase freqdata rate) rate taus

/-! ## TIE rms / MTIE -/

/-- The mean of squared adjacent-offset ranges of one `tierms_phase` iteration:
rows of `column_stack((phase[:-mj], phase[mj:]))` reduced by `max - min`,
then `mean(phases * phases)`. -/
def tierms_meansq (phase : List ℚ) (mj : ℤ) : ℚ :=
  let pairs := (phase.take (phase.length - mj.toNat)).zip (phase.drop mj.toNat)
  let ranges := pairs.map fun (a, b) => max a b - min a b
  (ranges.map fun x => x * x).sum / (ranges.length : ℚ)

/-- `tierms_phase(phase, rate, taus)`: TIE rms.  For each `mj`:
`tie = sqrt(mean(phases^2))`, `deverr = 0/sqrt(ncount)` (the source marks this
as suspect), `ns = ncount = len(phase) - mj`. -/
def tierms_phase (sq : ℚ → ℚ) (phase : List ℚ) (rate : ℚ) (taus : List ℚ) :
    Except String Result :=
  (tau_m phase rate taus).map fun (data, m, taus_used) =>
    let rs := m.map fun mj =>
      let tie := sq (tierms_meansq data mj)
      let ncount := data.length - mj.toNat
      (tie, 0 / sq (ncount : ℚ), ncount)
    remove_small_ns taus_used (rs.map fun r => r.1) (rs.map fun r => r.2.1)
      (rs.map fun r => ((r.2.2 : ℕ) : ℚ))

/-- `tierms`: TIE rms of fractional-frequency data. -/
def tierms (sq : ℚ → ℚ) (freqdata : List ℚ) (rate : ℚ) (taus : List ℚ) :
    Except String Result :=
  tierms_phase sq (frequency2phase freqdata rate) rate taus

/-- Maximum of a list of rationals (`np.nanmax`; junk value 0 on the empty
list, which `tau_m`'s `m < len` guarantee makes unreachable). -/
def listMax : List ℚ → ℚ
  | [] => 0
  | x :: xs => xs.foldl max x

/-- Minimum of a list of rationals. -/
def listMin : List ℚ → ℚ
  | [] => 0
  | x :: xs => xs.foldl min x

/-- The per-window peak-to-peak ranges of `mtie_phase`: for every sliding
window of `win_size` consecutive phase values, `max - min` (the non-NaN part
of `bn.move_nanmax(phase, win_size) - bn.move_nanmin(phase, win_size)`). -/
def mtie_rolling (phase : List ℚ) (win_size : ℕ) : List ℚ :=
  (List.range (phase.length + 1 - win_size)).map fun j =>
    let win := (phase.drop j).take win_size
    listMax win - listMin win

/-- The deviation of one `mtie_phase` iteration:
`dev = nanmax(win_max - win_min)` over all windows of size `mj + 1`. -/
def mtie_dev (phase : List ℚ) (mj : ℤ) : ℚ :=
  listMax (mtie_rolling phase (mj.toNat + 1))

/-- `mtie_phase(phase, rate, taus)`: maximum time interval error.  For each
`mj`: `dev = mtie_dev`, `deverr = dev/sqrt(ncount)`, `ns = ncount = N - mj`. -/
def mtie_phase (sq : ℚ → ℚ) (phase : List ℚ) (rate : ℚ) (taus : List ℚ) :
    Except String Result :=
  (tau_m phase rate taus).map fun (phase, m, taus_used) =>
    let rs := m.map fun mj =>
      let dev := mtie_dev phase mj
      let ncount := phase.length - mj.toNat
      (dev, dev / sq (ncount : ℚ), ncount)
    remove_small_ns taus_used (rs.map fun r => r.1) (rs.map fun r => r.2.1)
      (rs.map fun r => ((r.2.2 : ℕ) : ℚ))

/-- `mtie`: maximum time interval error of fractional-frequency data. -/
def mtie (sq : ℚ → ℚ) (freqdata : List ℚ) (rate : ℚ) (taus : List ℚ) :
    Except String Result :=
  mtie_phase sq (frequency2phase freqdata rate) rate taus

/-! ## Three-cornered hat -/

/-- `three_cornered_hat_phase(ab, bc, ca, rate, taus, function)`: run the given
estimator on the three pairwise series, square the deviations, check the
`assert len(var_ab) == len(var_bc) == len(var_ca)`, form
`var_a = 0.5*(var_ab + var_ca - var_bc)`, take elementwise square roots and
overwrite the entries at `var_a < 0` with 0 (`dev_a[var_a < 0] = 0`; numpy's
`sqrt` of a negative is NaN, which this assignment replaces).  Returns
`(tau_ab, dev_a)` — two arrays only. -/
def three_cornered_hat_phase (sq : ℚ → ℚ)
    (phasedata_ab phasedata_bc phasedata_ca : List ℚ) (rate : ℚ) (taus : List ℚ)
    (function : List ℚ → ℚ → List ℚ → Except String Result) :
    Except String (List ℚ × List ℚ) := do
  let (tau_ab, dev_ab, _err_ab, _ns_ab) ← function phasedata_ab rate taus
  let (_tau_bc, dev_bc, _err_bc, _ns_bc) ← function phasedata_bc rate taus
  let (_tau_ca, dev_ca, _err_ca, _ns_ca) ← function phasedata_ca rate taus
  let var_ab := dev_ab.map fun d => d * d
  let var_bc := dev_bc.map fun d => d * d
  let var_ca := dev_ca.map fun d => d * d
  if var_ab.length = var_bc.length ∧ var_bc.length = var_ca.length then
    let var_a := zipWith3 (fun ab ca bc => (1 / 2) * (ab + ca - bc)) var_ab var_ca var_bc
    let dev_a := (var_a.zip (var_a.map sq)).map fun (v, d) => if v < 0 then 0 else d
    .ok (tau_ab, dev_a)
  else .error "AssertionError"

end AllanTools

namespace AllanTools

theorem cumsum_length (l : List ℚ) : (cumsum l).length = l.length := by
  simp [cumsum]

theorem cumsum_getD (l : List ℚ) (i : ℕ) (h : i < l.length) :
    (cumsum l).getD i 0 = (l.take (i + 1)).sum := by
  rw [List.getD_eq_getElem]
  · simp [cumsum]
  · simpa [cumsum_length] using h

theorem frequency2phase_getD (f : List ℚ) (rate : ℚ) (i : ℕ) (h : i ≤ f.length) :
    (frequency2phase f rate).getD i 0 = (f.take i).sum * (1 / rate) := by
  cases i with
  | zero => simp [frequency2phase]
  | succ j =>
    have hj : j < f.length := h
    rw [frequency2phase, List.getD_cons_succ, List.getD_eq_getElem]
    · simp [cumsum]
    · simpa [cumsum_length] using hj

/-- C4: `frequency2phase` returns an array of length `len + 1`, starting at 0,
satisfying the cumulative-integration recurrence `p[i+1] = p[i] + f[i]/rate`. -/
theorem frequency2phase_spec (f : List ℚ) (rate : ℚ) (h : rate ≠ 0) :
    (frequency2phase f rate).length = f.length + 1 ∧
    (frequency2phase f rate).getD 0 0 = 0 ∧
    ∀ i < f.length, (frequency2phase f rate).getD (i + 1) 0 =
      (frequency2phase f rate).getD i 0 + f.getD i 0 / rate := by
  refine ⟨by simp [frequency2phase, cumsum_length], rfl, fun i hi => ?_⟩
  rw [frequency2phase_getD f rate i hi.le, frequency2phase_getD f rate (i + 1) hi,
    List.sum_take_succ f i hi, List.getD_eq_getElem f 0 hi]
  ring

/-- Witness for C4 at `f = [2, 3]`, `rate = 2`. -/
theorem frequency2phase_spec_witness :
    (frequency2phase [2, 3] 2).getD 1 0 = (frequency2phase [2, 3] 2).getD 0 0 + 2 / 2 ∧
    (frequency2phase [2, 3] 2).getD 2 0 = (frequency2phase [2, 3] 2).getD 1 0 + 3 / 2 := by
  have h := frequency2phase_spec [2, 3] 2 (by norm_num)
  exact ⟨h.2.2 0 (by norm_num), h.2.2 1 (by norm_num)⟩

/-- C1: every frequency-domain estimator delegates to its `_phase` variant
after `frequency2phase` conversion. -/
theorem freq_wrappers_delegate (sq : ℚ → ℚ) (f : List ℚ) (rate : ℚ) (taus : List ℚ) :
    adev sq f rate taus = adev_phase sq (frequency2phase f rate) rate taus ∧
    oadev sq f rate taus = oadev_phase sq (frequency2phase f rate) rate taus ∧
    mdev sq f rate taus = mdev_phase sq (frequency2phase f rate) rate taus ∧
    tdev sq f rate taus = tdev_phase sq (frequency2phase f rate) rate taus ∧
    hdev sq f rate taus = hdev_phase sq (frequency2phase f rate) rate taus ∧
    ohdev sq f rate taus = ohdev_phase sq (frequency2phase f rate) rate taus ∧
    totdev sq f rate taus = totdev_phase sq (frequency2phase f rate) rate taus ∧
    tierms sq f rate taus = tierms_phase sq (frequency2phase f rate) rate taus ∧
    mtie sq f rate taus = mtie_phase sq (frequency2phase f rate) rate taus :=
  ⟨rfl, rfl, rfl, rfl, rfl, rfl, rfl, rfl, rfl⟩

end AllanTools

namespace AllanTools

theorem mem_insertSortedUnique (x a : ℤ) (l : List ℤ) :
    a ∈ insertSortedUnique x l ↔ a = x ∨ a ∈ l := by
  induction l with
  | nil => simp [insertSortedUnique]
  | cons y ys ih =>
    by_cases h1 : x < y
    · simp [insertSortedUnique, h1, or_assoc]
    · by_cases h2 : x = y
      · subst h2
        rw [insertSortedUnique, if_neg h1, if_pos rfl]
        simp only [List.mem_cons]
        tauto
      · rw [insertSortedUnique, if_neg h1, if_neg h2]
        simp only [List.mem_cons, ih]
        tauto

theorem pairwise_insertSortedUnique (x : ℤ) (l : List ℤ)
    (hl : List.Pairwise (· < ·) l) :
    List.Pairwise (· < ·) (insertSortedUnique x l) := by
  induction l with
  | nil => simp [insertSortedUnique]
  | cons y ys ih =>
    rcases List.pairwise_cons.mp hl with ⟨hy, hys⟩
    by_cases h1 : x < y
    · rw [insertSortedUnique, if_pos h1]
      refine List.pairwise_cons.mpr ⟨?_, hl⟩
      intro a ha
      rcases List.mem_cons.mp ha with rfl | ha
      · exact h1
      · exact h1.trans (hy a ha)
    · by_cases h2 : x = y
      · rw [insertSortedUnique, if_neg h1, if_pos h2]; exact hl
      · rw [insertSortedUnique, if_neg h1, if_neg h2]
        refine List.pairwise_cons.mpr ⟨?_, ih hys⟩
        intro a ha
        rcases (mem_insertSortedUnique x a ys).mp ha with rfl | ha
        · omega
        · exact hy a ha

theorem mem_npUnique (a : ℤ) (l : List ℤ) : a ∈ npUnique l ↔ a ∈ l := by
  induction l with
  | nil => simp [npUnique]
  | cons y ys ih =>
    show a ∈ insertSortedUnique y (npUnique ys) ↔ _
    rw [mem_insertSortedUnique, ih]
    simp

theorem pairwise_npUnique (l : List ℤ) : List.Pairwise (· < ·) (npUnique l) := by
  induction l with
  | nil => simp [npUnique]
  | cons y ys ih => exact pairwise_insertSortedUnique y (npUnique ys) ih

/-- The `m` list produced by the non-error branch of `tau_m`. -/
def tau_m_ms (data : List ℚ) (rate : ℚ) (taus : List ℚ) : List ℤ :=
  npUnique (((taus.filter fun t =>
      decide (t < (1 / rate) * (data.length : ℚ)) && decide (0 < t)).map
    fun t => ⌊t * rate⌋).filter fun mi => decide (mi ≠ 0))

theorem tau_m_eq_ok (data : List ℚ) (rate : ℚ) (taus : List ℚ) (h : rate ≠ 0) :
    tau_m data rate taus = .ok (data, tau_m_ms data rate taus,
      (tau_m_ms data rate taus).map fun mi => (mi : ℚ) / rate) := by
  rw [tau_m, if_neg h]; rfl

theorem mem_tau_m_ms (data : List ℚ) (rate : ℚ) (taus : List ℚ) (mi : ℤ)
    (hm : mi ∈ tau_m_ms data rate taus) :
    0 < mi ∧ mi < (data.length : ℤ) ∧
      ∃ t ∈ taus, 0 < t ∧ t < (data.length : ℚ) / rate ∧ mi = ⌊t * rate⌋ := by
  rw [tau_m_ms, mem_npUnique] at hm
  simp only [List.mem_filter, List.mem_map, decide_eq_true_eq, Bool.and_eq_true] at hm
  obtain ⟨⟨t, ⟨⟨ht, hlt, hpos⟩, rfl⟩⟩, hne⟩ := hm
  rcases lt_trichotomy rate 0 with hr | hr | hr
  · exfalso
    have h1 : (1 / rate) ≤ 0 := le_of_lt (by exact one_div_neg.mpr hr)
    have h2 : (1 / rate) * (data.length : ℚ) ≤ 0 :=
      mul_nonpos_of_nonpos_of_nonneg h1 (by positivity)
    linarith
  · exfalso
    rw [hr] at hlt
    simp at hlt
    linarith
  · have hmul : t * rate < (data.length : ℚ) := by
      calc t * rate < (1 / rate) * (data.length : ℚ) * rate :=
            mul_lt_mul_of_pos_right hlt hr
        _ = (data.length : ℚ) := by field_simp
    have hfloor_lt : ⌊t * rate⌋ < (data.length : ℤ) := by
      rw [Int.floor_lt]; exact_mod_cast hmul
    have hnonneg : 0 ≤ ⌊t * rate⌋ := Int.floor_nonneg.mpr (by positivity)
    refine ⟨lt_of_le_of_ne hnonneg (Ne.symm hne), hfloor_lt, t, ht, hpos, ?_, rfl⟩
    rwa [lt_div_iff₀ hr]

theorem tau_m_ms_nil (data : List ℚ) (rate : ℚ) (taus : List ℚ)
    (hall : ∀ t ∈ taus, ¬(0 < t ∧ t < (data.length : ℚ) / rate)) :
    tau_m_ms data rate taus = [] := by
  have hf : (taus.filter fun t =>
      decide (t < (1 / rate) * (data.length : ℚ)) && decide (0 < t)) = [] := by
    rw [List.filter_eq_nil_iff]
    intro t ht
    simp only [Bool.and_eq_true, decide_eq_true_eq, not_and]
    intro hlt hpos
    exact hall t ht ⟨hpos, by rwa [one_div_mul_eq_div] at hlt⟩
  rw [tau_m_ms, hf]
  rfl

/-- C2: for nonzero rate, `tau_m` succeeds; the returned `m` are positive,
strictly increasing (hence unique) integers below the data length, each the
floor of a requested in-range `tau` times the rate; `tau_used = m/rate`; and
when no requested tau lies in `(0, len/rate)` the selection is empty, not an
error. -/
theorem tau_m_spec (data : List ℚ) (rate : ℚ) (taus : List ℚ) (h : rate ≠ 0) :
    (tau_m data rate taus).isOk = true ∧
    ∀ d m taus2, tau_m data rate taus = .ok (d, m, taus2) →
      d = data ∧
      List.Pairwise (· < ·) m ∧
      (∀ mi ∈ m, 0 < mi ∧ mi < (data.length : ℤ) ∧
        ∃ t ∈ taus, 0 < t ∧ t < (data.length : ℚ) / rate ∧ mi = ⌊t * rate⌋) ∧
      taus2 = m.map (fun mi => (mi : ℚ) / rate) ∧
      ((∀ t ∈ taus, ¬(0 < t ∧ t < (data.length : ℚ) / rate)) → m = []) := by
  constructor
  · rw [tau_m_eq_ok data rate taus h]; rfl
  · intro d m taus2 heq
    rw [tau_m_eq_ok data rate taus h] at heq
    simp only [Except.ok.injEq, Prod.mk.injEq] at heq
    obtain ⟨rfl, rfl, rfl⟩ := heq
    exact ⟨rfl, pairwise_npUnique _, fun mi hmi => mem_tau_m_ms data rate taus mi hmi,
      rfl, tau_m_ms_nil data rate taus⟩

/-- Witness for C2 at `data = [0,1,2]`, `rate = 1`,
`taus = [1, 5, -2]` (5 and −2 are out of range and silently dropped). -/
theorem tau_m_spec_witness :
    (tau_m [0, 1, 2] 1 [1, 5, -2]).isOk = true ∧
    List.Pairwise (· < ·) ([1] : List ℤ) ∧
    ([1] : List ℚ) = ([1] : List ℤ).map (fun mi => (mi : ℚ) / 1) := by
  have h := tau_m_spec [0, 1, 2] 1 [1, 5, -2] (by norm_num)
  have hok : tau_m [0, 1, 2] 1 [1, 5, -2] = .ok ([0, 1, 2], [1], [1]) := by
    norm_num [tau_m, npUnique, insertSortedUnique]
  have h2 := h.2 [0, 1, 2] [1] [1] hok
  exact ⟨h.1, h2.2.1, h2.2.2.2.1⟩

end AllanTools

namespace AllanTools

/-- The indices at which the post-filter keeps entries: positions `i` with
`ns[i] > 1` (this is the spec's description of `remove_small_ns`, stated
independently of the mask recursion). -/
def keptIdx (ns : List ℚ) : List ℕ :=
  (List.range ns.length).filter fun i => decide (1 < ns.getD i 0)

theorem applyMask_sublist (mask : List Bool) (l : List ℚ) :
    (applyMask mask l).Sublist l := by
  induction mask generalizing l with
  | nil => cases l <;> simp [applyMask]
  | cons b bs ih =>
    cases l with
    | nil => simp [applyMask]
    | cons x xs =>
      rw [applyMask]
      by_cases hb : b
      · rw [if_pos hb]; exact (ih xs).cons₂ x
      · rw [if_neg hb]; exact (ih xs).cons x

theorem mem_applyMask_self (p : ℚ → Bool) (ns : List ℚ) :
    ∀ v ∈ applyMask (ns.map p) ns, p v = true := by
  induction ns with
  | nil => simp [applyMask]
  | cons n rest ih =>
    intro v hv
    rw [List.map_cons, applyMask] at hv
    by_cases hp : p n
    · rw [if_pos hp] at hv
      rcases List.mem_cons.mp hv with rfl | hv
      · exact hp
      · exact ih v hv
    · rw [if_neg hp] at hv
      exact ih v hv

theorem remove_small_ns_ns_gt1 (taus devs errs ns : List ℚ) :
    ∀ v ∈ (remove_small_ns taus devs errs ns).2.2.2, 1 < v := by
  intro v hv
  have := mem_applyMask_self (fun v => decide (1 < v)) ns v hv
  exact of_decide_eq_true this

theorem applyMask_eq_select (ns : List ℚ) : ∀ l : List ℚ, l.length = ns.length →
    applyMask (ns.map fun v => decide (1 < v)) l =
      (keptIdx ns).map fun i => l.getD i 0 := by
  induction ns with
  | nil =>
    intro l hl
    have hnil : l = [] := by simpa using hl
    subst hnil
    rfl
  | cons n rest ih =>
    intro l hl
    cases l with
    | nil => simp at hl
    | cons x xs =>
      have hx : xs.length = rest.length := by simpa using hl
      rw [List.map_cons, applyMask, keptIdx, List.length_cons,
        List.range_succ_eq_map, List.filter_cons]
      simp only [List.getD_cons_zero, List.getD_cons_succ, List.filter_map,
        List.map_map]
      by_cases hn : (1 : ℚ) < n
      · rw [if_pos (by simpa using hn), if_pos (by simpa using hn)]
        rw [List.map_cons]
        simp only [Function.comp_def, List.getD_cons_succ]
        rw [ih xs hx, keptIdx]
        simp [List.filter_map, Function.comp_def, List.map_map]
      · rw [if_neg (by simpa using hn), if_neg (by simpa using hn)]
        rw [ih xs hx, keptIdx]
        simp [List.filter_map, Function.comp_def, List.map_map]

theorem except_map_ok {α β : Type} (g : α → β) (E : Except String α) (r : β)
    (h : E.map g = .ok r) : ∃ a, E = .ok a ∧ r = g a := by
  cases E with
  | error e => simp [Except.map] at h
  | ok a => exact ⟨a, rfl, by simpa [Except.map] using h.symm⟩

end AllanTools

namespace AllanTools

theorem adev_phase_ns_gt1 (sq : ℚ → ℚ) (data : List ℚ) (rate : ℚ) (taus : List ℚ)
    (r : Result) (h : adev_phase sq data rate taus = .ok r) : ∀ v ∈ r.2.2.2, 1 < v := by
  obtain ⟨⟨d, m, tu⟩, -, rfl⟩ := except_map_ok _ _ _ h
  exact remove_small_ns_ns_gt1 _ _ _ _

theorem oadev_phase_ns_gt1 (sq : ℚ → ℚ) (data : List ℚ) (rate : ℚ) (taus : List ℚ)
    (r : Result) (h : oadev_phase sq data rate taus = .ok r) : ∀ v ∈ r.2.2.2, 1 < v := by
  obtain ⟨⟨d, m, tu⟩, -, rfl⟩ := except_map_ok _ _ _ h
  exact remove_small_ns_ns_gt1 _ _ _ _

theorem mdev_phase_ns_gt1 (sq : ℚ → ℚ) (data : List ℚ) (rate : ℚ) (taus : List ℚ)
    (r : Result) (h : mdev_phase sq data rate taus = .ok r) : ∀ v ∈ r.2.2.2, 1 < v := by
  obtain ⟨⟨d, m, tu⟩, -, rfl⟩ := except_map_ok _ _ _ h
  exact remove_small_ns_ns_gt1 _ _ _ _

theorem tdev_phase_ns_gt1 (sq : ℚ → ℚ) (data : List ℚ) (rate : ℚ) (taus : List ℚ)
    (r : Result) (h : tdev_phase sq data rate taus = .ok r) : ∀ v ∈ r.2.2.2, 1 < v := by
  obtain ⟨⟨t2, md, mde, ns⟩, ha, rfl⟩ := except_map_ok _ _ _ h
  show ∀ v ∈ ns, 1 < v
  exact mdev_phase_ns_gt1 sq data rate taus (t2, md, mde, ns) ha

theorem hdev_phase_ns_gt1 (sq : ℚ → ℚ) (data : List ℚ) (rate : ℚ) (taus : List ℚ)
    (r : Result) (h : hdev_phase sq data rate taus = .ok r) : ∀ v ∈ r.2.2.2, 1 < v := by
  obtain ⟨⟨d, m, tu⟩, -, rfl⟩ := except_map_ok _ _ _ h
  exact remove_small_ns_ns_gt1 _ _ _ _

theorem ohdev_phase_ns_gt1 (sq : ℚ → ℚ) (data : List ℚ) (rate : ℚ) (taus : List ℚ)
    (r : Result) (h : ohdev_phase sq data rate taus = .ok r) : ∀ v ∈ r.2.2.2, 1 < v := by
  obtain ⟨⟨d, m, tu⟩, -, rfl⟩ := except_map_ok _ _ _ h
  exact remove_small_ns_ns_gt1 _ _ _ _

theorem tierms_phase_ns_gt1 (sq : ℚ → ℚ) (data : List ℚ) (rate : ℚ) (taus : List ℚ)
    (r : Result) (h : tierms_phase sq data rate taus = .ok r) : ∀ v ∈ r.2.2.2, 1 < v := by
  obtain ⟨⟨d, m, tu⟩, -, rfl⟩ := except_map_ok _ _ _ h
  exact remove_small_ns_ns_gt1 _ _ _ _

theorem mtie_phase_ns_gt1 (sq : ℚ → ℚ) (data : List ℚ) (rate : ℚ) (taus : List ℚ)
    (r : Result) (h : mtie_phase sq data rate taus = .ok r) : ∀ v ∈ r.2.2.2, 1 < v := by
  obtain ⟨⟨d, m, tu⟩, -, rfl⟩ := except_map_ok _ _ _ h
  exact remove_small_ns_ns_gt1 _ _ _ _

theorem totdev_phase_ns_gt1 (sq : ℚ → ℚ) (data : List ℚ) (rate : ℚ) (taus : List ℚ)
    (r : Result) (h : totdev_phase sq data rate taus = .ok r) : ∀ v ∈ r.2.2.2, 1 < v := by
  rw [totdev_phase] at h
  cases htau : tau_m data rate taus with
  | error e => rw [htau] at h; exact absurd h (by simp [Bind.bind, Except.bind])
  | ok trip =>
    rw [htau] at h
    obtain ⟨d, m, tu⟩ := trip
    simp only [Bind.bind, Except.bind] at h
    by_cases hlen : d.length < 2
    · rw [if_pos hlen] at h; exact absurd h (by simp)
    · rw [if_neg hlen] at h
      injection h with h
      subst h
      exact remove_small_ns_ns_gt1 _ _ _ _

end AllanTools

namespace AllanTools

/-- C3: `remove_small_ns` returns exactly the order-preserving subsequence of
the four parallel arrays at the indices with `n > 1`, and consequently every
entry of the `ns` component returned by every estimator satisfies `n > 1`. -/
theorem remove_small_ns_spec (taus devs errs ns : List ℚ)
    (h1 : taus.length = ns.length) (h2 : devs.length = ns.length)
    (h3 : errs.length = ns.length) :
    remove_small_ns taus devs errs ns =
      ((keptIdx ns).map (fun i => taus.getD i 0),
       (keptIdx ns).map (fun i => devs.getD i 0),
       (keptIdx ns).map (fun i => errs.getD i 0),
       (keptIdx ns).map (fun i => ns.getD i 0)) ∧
    (remove_small_ns taus devs errs ns).1.Sublist taus ∧
    (remove_small_ns taus devs errs ns).2.1.Sublist devs ∧
    (remove_small_ns taus devs errs ns).2.2.1.Sublist errs ∧
    (remove_small_ns taus devs errs ns).2.2.2.Sublist ns ∧
    (∀ v ∈ (remove_small_ns taus devs errs ns).2.2.2, 1 < v) ∧
    (∀ sq data rate rtaus r, adev_phase sq data rate rtaus = .ok r →
      ∀ v ∈ r.2.2.2, 1 < v) ∧
    (∀ sq data rate rtaus r, oadev_phase sq data rate rtaus = .ok r →
      ∀ v ∈ r.2.2.2, 1 < v) ∧
    (∀ sq data rate rtaus r, mdev_phase sq data rate rtaus = .ok r →
      ∀ v ∈ r.2.2.2, 1 < v) ∧
    (∀ sq data rate rtaus r, tdev_phase sq data rate rtaus = .ok r →
      ∀ v ∈ r.2.2.2, 1 < v) ∧
    (∀ sq data rate rtaus r, hdev_phase sq data rate rtaus = .ok r →
      ∀ v ∈ r.2.2.2, 1 < v) ∧
    (∀ sq data rate rtaus r, ohdev_phase sq data rate rtaus = .ok r →
      ∀ v ∈ r.2.2.2, 1 < v) ∧
    (∀ sq data rate rtaus r, totdev_phase sq data rate rtaus = .ok r →
      ∀ v ∈ r.2.2.2, 1 < v) ∧
    (∀ sq data rate rtaus r, tierms_phase sq data rate rtaus = .ok r →
      ∀ v ∈ r.2.2.2, 1 < v) ∧
    (∀ sq data rate rtaus r, mtie_phase sq data rate rtaus = .ok r →
      ∀ v ∈ r.2.2.2, 1 < v) := by
  refine ⟨?_, applyMask_sublist _ _, applyMask_sublist _ _, applyMask_sublist _ _,
    applyMask_sublist _ _, remove_small_ns_ns_gt1 taus devs errs ns,
    adev_phase_ns_gt1, oadev_phase_ns_gt1, mdev_phase_ns_gt1, tdev_phase_ns_gt1,
    hdev_phase_ns_gt1, ohdev_phase_ns_gt1, totdev_phase_ns_gt1,
    tierms_phase_ns_gt1, mtie_phase_ns_gt1⟩
  rw [remove_small_ns]
  rw [applyMask_eq_select ns taus h1, applyMask_eq_select ns devs h2,
    applyMask_eq_select ns errs h3, applyMask_eq_select ns ns rfl]

/-- Witness for C3 at `(taus, devs, errs, ns) = ([1,2],[5,6],[7,8],[1,3])`:
the `n = 1` entry is dropped, the `n = 3` entry kept. -/
theorem remove_small_ns_spec_witness :
    remove_small_ns [1, 2] [5, 6] [7, 8] [1, 3] = ([2], [6], [8], [3]) ∧
    (1 : ℚ) < 3 := by
  have h := remove_small_ns_spec [1, 2] [5, 6] [7, 8] [1, 3] rfl rfl rfl
  have hk : keptIdx [1, 3] = [1] := by
    rw [keptIdx]
    norm_num [List.range_succ, List.getD, List.getElem?_cons_zero,
      List.getElem?_cons_succ]
  constructor
  · rw [h.1, hk]
    norm_num [List.getD, List.getElem?_cons_zero, List.getElem?_cons_succ]
  · exact h.2.2.2.2.2.1 3 (by
      rw [h.1, hk]
      norm_num [List.getD, List.getElem?_cons_zero, List.getElem?_cons_succ])

end AllanTools

namespace AllanTools

theorem zipWith3_length (f : ℚ → ℚ → ℚ → ℚ) (a b c : List ℚ) :
    (zipWith3 f a b c).length = min (min a.length b.length) c.length := by
  induction a generalizing b c with
  | nil => cases b <;> cases c <;> simp [zipWith3]
  | cons x xs ih =>
    cases b with
    | nil => simp [zipWith3]
    | cons y ys =>
      cases c with
      | nil => simp [zipWith3]
      | cons z zs =>
        simp only [zipWith3, List.length_cons, ih]
        omega

theorem zipWith3_getD (f : ℚ → ℚ → ℚ → ℚ) (a b c : List ℚ) (i : ℕ)
    (hi : i < (zipWith3 f a b c).length) :
    (zipWith3 f a b c).getD i 0 = f (a.getD i 0) (b.getD i 0) (c.getD i 0) := by
  induction a generalizing b c i with
  | nil => simp [zipWith3] at hi
  | cons x xs ih =>
    cases b with
    | nil => simp [zipWith3] at hi
    | cons y ys =>
      cases c with
      | nil => simp [zipWith3] at hi
      | cons z zs =>
        cases i with
        | zero => rfl
        | succ j =>
          simp only [zipWith3, List.length_cons, Nat.succ_lt_succ_iff] at hi
          simp only [zipWith3, List.getD_cons_succ]
          exact ih ys zs j hi

/-- Full characterization of `three_cornered_hat_phase` on three successful
estimator runs with matching lengths (shared backbone for its claims). -/
theorem tch_characterization (sq : ℚ → ℚ)
    (func : List ℚ → ℚ → List ℚ → Except String Result)
    (ab bc ca : List ℚ) (rate : ℚ) (taus : List ℚ)
    (t1 d1 e1 n1 t2 d2 e2 n2 t3 d3 e3 n3 : List ℚ)
    (hab : func ab rate taus = .ok (t1, d1, e1, n1))
    (hbc : func bc rate taus = .ok (t2, d2, e2, n2))
    (hca : func ca rate taus = .ok (t3, d3, e3, n3))
    (h1 : d1.length = d2.length) (h2 : d2.length = d3.length) :
    ∃ devA : List ℚ,
      three_cornered_hat_phase sq ab bc ca rate taus func = .ok (t1, devA) ∧
      devA.length = d1.length ∧
      ∀ i < d1.length,
        devA.getD i 0 =
          if (1 / 2) * (d1.getD i 0 * d1.getD i 0 + d3.getD i 0 * d3.getD i 0
              - d2.getD i 0 * d2.getD i 0) < 0 then 0
          else sq ((1 / 2) * (d1.getD i 0 * d1.getD i 0 + d3.getD i 0 * d3.getD i 0
              - d2.getD i 0 * d2.getD i 0)) := by
  rw [three_cornered_hat_phase, hab]
  simp only [Bind.bind, Except.bind]
  rw [hbc]
  simp only
  rw [hca]
  simp only
  rw [if_pos (by simp [h1, h2])]
  set var_a := zipWith3 (fun ab ca bc => (1 / 2) * (ab + ca - bc))
    (d1.map fun d => d * d) (d3.map fun d => d * d) (d2.map fun d => d * d) with hva
  have hlenva : var_a.length = d1.length := by
    rw [hva, zipWith3_length]
    simp [h1, h2]
  refine ⟨_, rfl, ?_, ?_⟩
  · simp [hlenva]
  · intro i hi
    have hiva : i < var_a.length := by rwa [hlenva]
    have hizip : i < (var_a.zip (var_a.map sq)).length := by
      simpa [List.length_zip] using hiva
    have hva_i : var_a.getD i 0 =
        (1 / 2) * (d1.getD i 0 * d1.getD i 0 + d3.getD i 0 * d3.getD i 0
          - d2.getD i 0 * d2.getD i 0) := by
      rw [hva, zipWith3_getD _ _ _ _ _ (by rwa [← hva])]
      have g1 : (d1.map fun d => d * d).getD i 0 = d1.getD i 0 * d1.getD i 0 := by
        rw [List.getD_eq_getElem _ _ (by simpa using hi), List.getElem_map,
          List.getD_eq_getElem _ _ hi]
      have g2 : (d2.map fun d => d * d).getD i 0 = d2.getD i 0 * d2.getD i 0 := by
        rw [List.getD_eq_getElem _ _ (by simp; omega), List.getElem_map,
          List.getD_eq_getElem _ _ (by omega)]
      have g3 : (d3.map fun d => d * d).getD i 0 = d3.getD i 0 * d3.getD i 0 := by
        rw [List.getD_eq_getElem _ _ (by simp; omega), List.getElem_map,
          List.getD_eq_getElem _ _ (by omega)]
      rw [g1, g2, g3]
    rw [List.getD_eq_getElem _ _ (by simpa [List.length_zip] using hiva),
      List.getElem_map, List.getElem_zip]
    simp only
    rw [List.getElem_map]
    rw [show var_a[i] = var_a.getD i 0 from (List.getD_eq_getElem _ _ hiva).symm]
    rw [hva_i]

end AllanTools

namespace AllanTools

/-- Concrete run: `adev_phase` with `sq = id` on the all-zero series. -/
theorem adev_phase_id_zeros : adev_phase id [0, 0, 0, 0] 1 [1] = .ok ([1], [0], [0], [2]) := by
  have htau : tau_m [0, 0, 0, 0] 1 [1] = .ok ([0, 0, 0, 0], [1], [1]) := by
    norm_num [tau_m, npUnique, insertSortedUnique]
  have hc : calc_adev_phase id [0, 0, 0, 0] 1 1 1 = (0, 0, 2) := by
    have hn : calc_adev_n [0, 0, 0, 0] 1 1 = 2 := rfl
    have hs : calc_adev_s [0, 0, 0, 0] 1 1 = 0 := by
      simp [calc_adev_s, calc_adev_n, sliceStep, zipWith3, List.range_succ, List.getD]
    rw [calc_adev_phase, hn, hs]
    norm_num
  rw [adev_phase, htau]
  simp only [Except.map, List.map_cons, List.map_nil, Int.toNat_one, hc]
  norm_num [remove_small_ns, applyMask]

/-- Concrete run: `adev_phase` with `sq = id` on an alternating series. -/
theorem adev_phase_id_sawtooth : adev_phase id [0, 1, 0, 1] 1 [1] = .ok ([1], [2], [1], [2]) := by
  have htau : tau_m [0, 1, 0, 1] 1 [1] = .ok ([0, 1, 0, 1], [1], [1]) := by
    norm_num [tau_m, npUnique, insertSortedUnique]
  have hc : calc_adev_phase id [0, 1, 0, 1] 1 1 1 = (2, 1, 2) := by
    have hn : calc_adev_n [0, 1, 0, 1] 1 1 = 2 := rfl
    have hs : calc_adev_s [0, 1, 0, 1] 1 1 = 8 := by
      simp [calc_adev_s, calc_adev_n, sliceStep, zipWith3, List.range_succ, List.getD]
      norm_num
    rw [calc_adev_phase, hn, hs]
    norm_num
  rw [adev_phase, htau]
  simp only [Except.map, List.map_cons, List.map_nil, Int.toNat_one, hc]
  norm_num [remove_small_ns, applyMask]

/-- C5: `three_cornered_hat_phase` forms `var_A = 0.5*(var_AB + var_CA − var_BC)`
from the squared deviations of the three estimator runs; at every index with
`var_A < 0` the returned deviation is exactly 0 (no NaN, no raised error),
and elsewhere it is `sqrt(var_A)`. -/
theorem three_cornered_hat_phase_clamp (sq : ℚ → ℚ)
    (func : List ℚ → ℚ → List ℚ → Except String Result)
    (ab bc ca : List ℚ) (rate : ℚ) (taus : List ℚ)
    (t1 d1 e1 n1 t2 d2 e2 n2 t3 d3 e3 n3 : List ℚ)
    (hab : func ab rate taus = .ok (t1, d1, e1, n1))
    (hbc : func bc rate taus = .ok (t2, d2, e2, n2))
    (hca : func ca rate taus = .ok (t3, d3, e3, n3))
    (h1 : d1.length = d2.length) (h2 : d2.length = d3.length) :
    ∃ devA : List ℚ,
      three_cornered_hat_phase sq ab bc ca rate taus func = .ok (t1, devA) ∧
      devA.length = d1.length ∧
      ∀ i < d1.length,
        devA.getD i 0 =
          if (1 / 2) * (d1.getD i 0 * d1.getD i 0 + d3.getD i 0 * d3.getD i 0
              - d2.getD i 0 * d2.getD i 0) < 0 then 0
          else sq ((1 / 2) * (d1.getD i 0 * d1.getD i 0 + d3.getD i 0 * d3.getD i 0
              - d2.getD i 0 * d2.getD i 0)) :=
  tch_characterization sq func ab bc ca rate taus t1 d1 e1 n1 t2 d2 e2 n2 t3 d3 e3 n3
    hab hbc hca h1 h2

/-- Witness for C5: clocks with `dev_AB = dev_CA = 0` but `dev_BC = 2` make
`var_A = -2 < 0`; the combined deviation is clamped to 0 (and no error is
raised). -/
theorem three_cornered_hat_phase_clamp_witness :
    ∃ devA : List ℚ,
      three_cornered_hat_phase id [0, 0, 0, 0] [0, 1, 0, 1] [0, 0, 0, 0] 1 [1]
        (adev_phase id) = .ok ([1], devA) ∧ devA.getD 0 0 = 0 := by
  obtain ⟨devA, heq, hlen, hent⟩ := three_cornered_hat_phase_clamp id (adev_phase id)
    [0, 0, 0, 0] [0, 1, 0, 1] [0, 0, 0, 0] 1 [1]
    [1] [0] [0] [2] [1] [2] [1] [2] [1] [0] [0] [2]
    adev_phase_id_zeros adev_phase_id_sawtooth adev_phase_id_zeros rfl rfl
  refine ⟨devA, heq, ?_⟩
  have h0 := hent 0 (by norm_num)
  rw [h0]
  norm_num

/-- C10: `three_cornered_hat_phase` returns exactly two arrays — the surviving
tau values of the A-B run and the combined clock-A deviations, of equal
length — with no error-estimate array and no sample-count array (its result
is a pair, not the estimators' four-tuple). -/
theorem three_cornered_hat_phase_shape (sq : ℚ → ℚ)
    (func : List ℚ → ℚ → List ℚ → Except String Result)
    (ab bc ca : List ℚ) (rate : ℚ) (taus : List ℚ)
    (t1 d1 e1 n1 t2 d2 e2 n2 t3 d3 e3 n3 : List ℚ)
    (hab : func ab rate taus = .ok (t1, d1, e1, n1))
    (hbc : func bc rate taus = .ok (t2, d2, e2, n2))
    (hca : func ca rate taus = .ok (t3, d3, e3, n3))
    (h1 : d1.length = d2.length) (h2 : d2.length = d3.length)
    (ht : t1.length = d1.length) :
    ∃ devA : List ℚ,
      three_cornered_hat_phase sq ab bc ca rate taus func = .ok (t1, devA) ∧
      devA.length = t1.length := by
  obtain ⟨devA, heq, hlen, -⟩ := tch_characterization sq func ab bc ca rate taus
    t1 d1 e1 n1 t2 d2 e2 n2 t3 d3 e3 n3 hab hbc hca h1 h2
  exact ⟨devA, heq, by rw [hlen, ht]⟩

/-- Witness for C10 at the same concrete clocks as the clamp witness. -/
theorem three_cornered_hat_phase_shape_witness :
    ∃ devA : List ℚ,
      three_cornered_hat_phase id [0, 0, 0, 0] [0, 1, 0, 1] [0, 0, 0, 0] 1 [1]
        (adev_phase id) = .ok ([1], devA) ∧ devA.length = 1 := by
  obtain ⟨devA, heq, hlen⟩ := three_cornered_hat_phase_shape id (adev_phase id)
    [0, 0, 0, 0] [0, 1, 0, 1] [0, 0, 0, 0] 1 [1]
    [1] [0] [0] [2] [1] [2] [1] [2] [1] [0] [0] [2]
    adev_phase_id_zeros adev_phase_id_sawtooth adev_phase_id_zeros rfl rfl rfl
  exact ⟨devA, heq, by rw [hlen]; rfl⟩

end AllanTools

namespace AllanTools

/-- If the accumulated sum of squares is 0 (and `sqrt 0 = 0`), the Allan
deviation term and its error are exactly 0. -/
theorem calc_adev_phase_zero_s (sq : ℚ → ℚ) (h0 : sq 0 = 0) (data : List ℚ)
    (rate : ℚ) (mj : ℤ) (stride : ℕ) (hs : calc_adev_s data mj stride = 0) :
    calc_adev_phase sq data rate mj stride = (0, 0, calc_adev_n data mj stride) := by
  rw [calc_adev_phase, hs]
  norm_num [h0]

/-- If the accumulated sum of squares is 0 (and `sqrt 0 = 0`), the Hadamard
deviation term and its error are exactly 0. -/
theorem calc_hdev_phase_zero_s (sq : ℚ → ℚ) (h0 : sq 0 = 0) (data : List ℚ)
    (rate : ℚ) (mj : ℤ) (stride : ℕ) (hs : calc_hdev_s data mj stride = 0) :
    calc_hdev_phase sq data rate mj stride = (0, 0, calc_hdev_n data mj stride) := by
  rw [calc_hdev_phase, hs]
  norm_num [h0]

/-- C7: on the linear phase ramp `[0,…,9]` with `rate = 1`, `taus = [1,2,3]`,
tau selection yields `m = [1,2,3]`, and ADEV, OADEV and HDEV all report
deviation 0 at every tau surviving the `n > 1` filter (HDEV's `m = 3` entry
has `n = 1` and is dropped). -/
theorem linear_phase_zero_devs (sq : ℚ → ℚ) (h0 : sq 0 = 0) :
    tau_m [0,1,2,3,4,5,6,7,8,9] 1 [1,2,3] =
      .ok ([0,1,2,3,4,5,6,7,8,9], [1,2,3], [1,2,3]) ∧
    adev_phase sq [0,1,2,3,4,5,6,7,8,9] 1 [1,2,3] =
      .ok ([1,2,3], [0,0,0], [0,0,0], [8,3,2]) ∧
    oadev_phase sq [0,1,2,3,4,5,6,7,8,9] 1 [1,2,3] =
      .ok ([1,2,3], [0,0,0], [0,0,0], [8,6,4]) ∧
    hdev_phase sq [0,1,2,3,4,5,6,7,8,9] 1 [1,2,3] =
      .ok ([1,2], [0,0], [0,0], [7,2]) := by
  have htau : tau_m [0,1,2,3,4,5,6,7,8,9] 1 [1,2,3] =
      .ok ([0,1,2,3,4,5,6,7,8,9], [1,2,3], [1,2,3]) := by
    norm_num [tau_m, npUnique, insertSortedUnique]
  refine ⟨htau, ?_, ?_, ?_⟩
  · have hs1 : calc_adev_s [0,1,2,3,4,5,6,7,8,9] 1 ((1:ℤ).toNat) = 0 := by
      simp [calc_adev_s, calc_adev_n, sliceStep, zipWith3, List.range_succ, List.getD]
      norm_num
    have hs2 : calc_adev_s [0,1,2,3,4,5,6,7,8,9] 2 ((2:ℤ).toNat) = 0 := by
      simp [calc_adev_s, calc_adev_n, sliceStep, zipWith3, List.range_succ, List.getD]
      norm_num
    have hs3 : calc_adev_s [0,1,2,3,4,5,6,7,8,9] 3 ((3:ℤ).toNat) = 0 := by
      simp [calc_adev_s, calc_adev_n, sliceStep, zipWith3, List.range_succ, List.getD]
      norm_num
    have hc1 : calc_adev_phase sq [0,1,2,3,4,5,6,7,8,9] 1 1 ((1:ℤ).toNat) = (0, 0, 8) := by
      rw [calc_adev_phase_zero_s sq h0 _ 1 1 _ hs1]
      rfl
    have hc2 : calc_adev_phase sq [0,1,2,3,4,5,6,7,8,9] 1 2 ((2:ℤ).toNat) = (0, 0, 3) := by
      rw [calc_adev_phase_zero_s sq h0 _ 1 2 _ hs2]
      rfl
    have hc3 : calc_adev_phase sq [0,1,2,3,4,5,6,7,8,9] 1 3 ((3:ℤ).toNat) = (0, 0, 2) := by
      rw [calc_adev_phase_zero_s sq h0 _ 1 3 _ hs3]
      rfl
    rw [adev_phase, htau]
    simp only [Except.map, List.map_cons, List.map_nil, hc1, hc2, hc3]
    norm_num [remove_small_ns, applyMask]
  · have hs1 : calc_adev_s [0,1,2,3,4,5,6,7,8,9] 1 1 = 0 := by
      simp [calc_adev_s, calc_adev_n, sliceStep, zipWith3, List.range_succ, List.getD]
      norm_num
    have hs2 : calc_adev_s [0,1,2,3,4,5,6,7,8,9] 2 1 = 0 := by
      simp [calc_adev_s, calc_adev_n, sliceStep, zipWith3, List.range_succ, List.getD]
      norm_num
    have hs3 : calc_adev_s [0,1,2,3,4,5,6,7,8,9] 3 1 = 0 := by
      simp [calc_adev_s, calc_adev_n, sliceStep, zipWith3, List.range_succ, List.getD]
      norm_num
    have hc1 : calc_adev_phase sq [0,1,2,3,4,5,6,7,8,9] 1 1 1 = (0, 0, 8) := by
      rw [calc_adev_phase_zero_s sq h0 _ 1 1 _ hs1]
      rfl
    have hc2 : calc_adev_phase sq [0,1,2,3,4,5,6,7,8,9] 1 2 1 = (0, 0, 6) := by
      rw [calc_adev_phase_zero_s sq h0 _ 1 2 _ hs2]
      rfl
    have hc3 : calc_adev_phase sq [0,1,2,3,4,5,6,7,8,9] 1 3 1 = (0, 0, 4) := by
      rw [calc_adev_phase_zero_s sq h0 _ 1 3 _ hs3]
      rfl
    rw [oadev_phase, htau]
    simp only [Except.map, List.map_cons, List.map_nil, hc1, hc2, hc3]
    norm_num [remove_small_ns, applyMask]
  · have hs1 : calc_hdev_s [0,1,2,3,4,5,6,7,8,9] 1 ((1:ℤ).toNat) = 0 := by
      simp [calc_hdev_s, calc_hdev_n0, sliceStep, zipWith4, List.range_succ, List.getD]
      norm_num
    have hs2 : calc_hdev_s [0,1,2,3,4,5,6,7,8,9] 2 ((2:ℤ).toNat) = 0 := by
      simp [calc_hdev_s, calc_hdev_n0, sliceStep, zipWith4, List.range_succ, List.getD]
      norm_num
    have hs3 : calc_hdev_s [0,1,2,3,4,5,6,7,8,9] 3 ((3:ℤ).toNat) = 0 := by
      simp [calc_hdev_s, calc_hdev_n0, sliceStep, zipWith4, List.range_succ, List.getD]
      norm_num
    have hc1 : calc_hdev_phase sq [0,1,2,3,4,5,6,7,8,9] 1 1 ((1:ℤ).toNat) = (0, 0, 7) := by
      rw [calc_hdev_phase_zero_s sq h0 _ 1 1 _ hs1]
      rfl
    have hc2 : calc_hdev_phase sq [0,1,2,3,4,5,6,7,8,9] 1 2 ((2:ℤ).toNat) = (0, 0, 2) := by
      rw [calc_hdev_phase_zero_s sq h0 _ 1 2 _ hs2]
      rfl
    have hc3 : calc_hdev_phase sq [0,1,2,3,4,5,6,7,8,9] 1 3 ((3:ℤ).toNat) = (0, 0, 1) := by
      rw [calc_hdev_phase_zero_s sq h0 _ 1 3 _ hs3]
      rfl
    rw [hdev_phase, htau]
    simp only [Except.map, List.map_cons, List.map_nil, hc1, hc2, hc3]
    norm_num [remove_small_ns, applyMask]

/-- Witness for C7: the instantiation at `sq = id` (which satisfies
`sq 0 = 0`). -/
theorem linear_phase_zero_devs_witness :
    adev_phase id [0,1,2,3,4,5,6,7,8,9] 1 [1,2,3] =
      .ok ([1,2,3], [0,0,0], [0,0,0], [8,3,2]) ∧
    oadev_phase id [0,1,2,3,4,5,6,7,8,9] 1 [1,2,3] =
      .ok ([1,2,3], [0,0,0], [0,0,0], [8,6,4]) ∧
    hdev_phase id [0,1,2,3,4,5,6,7,8,9] 1 [1,2,3] =
      .ok ([1,2], [0,0], [0,0], [7,2]) :=
  ⟨(linear_phase_zero_devs id rfl).2.1, (linear_phase_zero_devs id rfl).2.2.1,
    (linear_phase_zero_devs id rfl).2.2.2⟩

end AllanTools

namespace AllanTools

/-- C9: on phase `[0, 0.1, -0.1, 0.3, 0]` with `rate = 1`, `tau = 1`
(`m = 1`, window size 2), MTIE reports deviation `0.4` — the maximum over all
sliding windows of size `m+1` of the window's peak-to-peak range — with
`n = N - m = 4`. -/
theorem mtie_phase_scenario (sq : ℚ → ℚ) :
    mtie_dev [0, 1/10, -1/10, 3/10, 0] 1 = 2/5 ∧
    mtie_phase sq [0, 1/10, -1/10, 3/10, 0] 1 [1] =
      .ok ([1], [2/5], [(2/5) / sq 4], [4]) := by
  have hdev : mtie_dev [0, 1/10, -1/10, 3/10, 0] 1 = 2/5 := by
    norm_num [mtie_dev, mtie_rolling, listMax, listMin, List.range_succ, max_def,
      min_def, List.getD]
  refine ⟨hdev, ?_⟩
  have htau : tau_m [0, 1/10, -1/10, 3/10, 0] 1 [1] =
      .ok ([0, 1/10, -1/10, 3/10, 0], [1], [1]) := by
    norm_num [tau_m, npUnique, insertSortedUnique]
  rw [mtie_phase, htau]
  simp only [Except.map, List.map_cons, List.map_nil, Int.toNat_one, hdev]
  norm_num [remove_small_ns, applyMask]

end AllanTools

namespace AllanTools

/-- Counterexample to C6 as stated: on phase `[0, 1]` with `rate = 1`,
`taus = [1]`, `m = 1` is selected and the TOTDEV window collapses to zero
available samples (`e = 0`), yet `totdev_phase` records `n = mid = N - 2 = 0`,
not 1, and its deviation normalization divisor `2*(mj/rate)^2*(N-2)` is 0 —
a division by zero does occur (numpy yields NaN there); the entry is removed
only by the `n > 1` filter, leaving an empty result. -/
theorem totdev_collapse_counterexample :
    tau_m [0, 1] 1 [1] = .ok ([0, 1], [1], [1]) ∧
    totdev_e [0, 1] 1 = 0 ∧
    ([0, 1] : List ℚ).length - 2 = 0 ∧
    2 * ((1 : ℚ) / 1) ^ 2 * ((([0, 1] : List ℚ).length : ℚ) - 2) = 0 ∧
    totdev_phase id [0, 1] 1 [1] = .ok ([], [], [], []) := by
  have htau : tau_m [0, 1] 1 [1] = .ok ([0, 1], [1], [1]) := by
    norm_num [tau_m, npUnique, insertSortedUnique]
  refine ⟨htau, rfl, rfl, by norm_num, ?_⟩
  have hvar : totdev_var [0, 1] 1 1 = 0 := by
    norm_num [totdev_var, totdev_e, totdev_x, zipWith3, List.getD]
  rw [totdev_phase]
  rw [htau]
  simp only [Bind.bind, Except.bind]
  rw [if_neg (by norm_num)]
  simp only [List.map_cons, List.map_nil, Int.toNat_one, hvar]
  norm_num [remove_small_ns, applyMask]

/-- C6 amended: `calc_adev_phase` and `calc_hdev_phase` (hence
ADEV/OADEV/HDEV/OHDEV) defensively set `n = 1` when their window count
collapses to 0, and MDEV's `n = e + 1` is at least 1; the `n > 1` filter then
removes such entries from every estimator's output.  (TOTDEV, by contrast,
records `n = N - 2` without the defensive reset — see the counterexample.) -/
theorem defensive_n_policy :
    (∀ data mj stride, 1 ≤ calc_adev_n data mj stride) ∧
    (∀ data mj stride,
      min (min (sliceStep data stride).length
          (sliceStep (data.drop mj.toNat) stride).length)
        (sliceStep (data.drop (2 * mj).toNat) stride).length = 0 →
      calc_adev_n data mj stride = 1) ∧
    (∀ data mj stride, 1 ≤ calc_hdev_n data mj stride) ∧
    (∀ data mj stride, calc_hdev_n0 data mj stride = 0 →
      calc_hdev_n data mj stride = 1) ∧
    (∀ data m, 1 ≤ mdev_n data m) ∧
    (∀ sq data rate taus r, adev_phase sq data rate taus = .ok r →
      ∀ v ∈ r.2.2.2, 1 < v) ∧
    (∀ sq data rate taus r, oadev_phase sq data rate taus = .ok r →
      ∀ v ∈ r.2.2.2, 1 < v) ∧
    (∀ sq data rate taus r, hdev_phase sq data rate taus = .ok r →
      ∀ v ∈ r.2.2.2, 1 < v) ∧
    (∀ sq data rate taus r, ohdev_phase sq data rate taus = .ok r →
      ∀ v ∈ r.2.2.2, 1 < v) ∧
    (∀ sq data rate taus r, mdev_phase sq data rate taus = .ok r →
      ∀ v ∈ r.2.2.2, 1 < v) ∧
    (∀ sq data rate taus r, totdev_phase sq data rate taus = .ok r →
      ∀ v ∈ r.2.2.2, 1 < v) := by
  refine ⟨?_, ?_, ?_, ?_, ?_, adev_phase_ns_gt1, oadev_phase_ns_gt1,
    hdev_phase_ns_gt1, ohdev_phase_ns_gt1, mdev_phase_ns_gt1, totdev_phase_ns_gt1⟩
  · intro data mj stride
    rw [calc_adev_n]
    split <;> omega
  · intro data mj stride h
    rw [calc_adev_n, h]
    rfl
  · intro data mj stride
    rw [calc_hdev_n]
    split <;> omega
  · intro data mj stride h
    rw [calc_hdev_n, h]
    rfl
  · intro data m
    rw [mdev_n]
    omega

/-- Witness for the amended C6: concrete collapsed windows (`[0,1,2]` with
`m = 2`, stride 2 for ADEV; `m = 1`, stride 1 for HDEV, where `data[3:]` is
empty) get `n = 1`. -/
theorem defensive_n_policy_witness :
    calc_adev_n [0, 1, 2] 2 2 = 1 ∧
    calc_hdev_n0 [0, 1, 2] 1 1 = 0 ∧
    calc_hdev_n [0, 1, 2] 1 1 = 1 := by
  refine ⟨defensive_n_policy.2.1 [0, 1, 2] 2 2 (by decide), by decide,
    defensive_n_policy.2.2.2.1 [0, 1, 2] 1 1 (by decide)⟩

end AllanTools

namespace AllanTools

theorem range_filter_mod_length (s : ℕ) (hs : 0 < s) : ∀ L : ℕ,
    ((List.range L).filter fun i => decide (i % s = 0)).length = (L + s - 1) / s := by
  intro L
  induction L with
  | zero =>
    rw [Nat.div_eq_of_lt (by omega)]
    rfl
  | succ L ih =>
    rw [List.range_succ, List.filter_append, List.length_append, ih,
      show L + 1 + s - 1 = L + s from by omega]
    have hlast : (List.filter (fun i => decide (i % s = 0)) [L]).length =
        if L % s = 0 then 1 else 0 := by
      by_cases hd : L % s = 0 <;> simp [hd]
    rw [hlast]
    have hiff : (s ∣ L + s) ↔ (L % s = 0) := by
      rw [Nat.dvd_add_self_right]
      exact Nat.dvd_iff_mod_eq_zero
    have key : (L + s) / s = (L + s - 1) / s + if L % s = 0 then 1 else 0 := by
      rw [show L + s = (L + s - 1) + 1 from by omega, Nat.succ_div]
      congr 1
      rw [show L + s - 1 + 1 = L + s from by omega]
      exact if_congr hiff rfl rfl
    rw [key]

theorem sliceStep_length (l : List ℚ) (s : ℕ) (hs : 0 < s) :
    (sliceStep l s).length = (l.length + s - 1) / s := by
  rw [sliceStep, List.length_map, range_filter_mod_length s hs]

end AllanTools

namespace AllanTools

theorem ceil_sub_div_antitone (L k a b : ℕ) (ha : 0 < a) (hab : a ≤ b) :
    (L - k * b + b - 1) / b ≤ (L - k * a + a - 1) / a := by
  have hb : 0 < b := lt_of_lt_of_le ha hab
  rcases Nat.eq_zero_or_pos k with rfl | hk
  · rcases Nat.eq_zero_or_pos L with rfl | hL
    · rw [Nat.div_eq_of_lt (by omega), Nat.div_eq_of_lt (by omega)]
    · rw [show L - 0 * b + b - 1 = (L - 1) + b from by omega,
        show L - 0 * a + a - 1 = (L - 1) + a from by omega,
        Nat.add_div_right _ hb, Nat.add_div_right _ ha]
      exact Nat.succ_le_succ (Nat.div_le_div_left hab ha)
  · by_cases hkb : L ≤ k * b
    · rw [show L - k * b + b - 1 = b - 1 from by omega, Nat.div_eq_of_lt (by omega)]
      exact Nat.zero_le _
    · push_neg at hkb
      have hka : k * a < L := lt_of_le_of_lt (Nat.mul_le_mul_left k hab) hkb
      have hmb : (k - 1) * b = k * b - b := Nat.sub_one_mul k b
      have hma : (k - 1) * a = k * a - a := Nat.sub_one_mul k a
      have hbb : b ≤ k * b := Nat.le_mul_of_pos_left b hk
      have haa : a ≤ k * a := Nat.le_mul_of_pos_left a hk
      rw [show L - k * b + b - 1 = (L - 1) - (k - 1) * b from by omega,
        show L - k * a + a - 1 = (L - 1) - (k - 1) * a from by omega]
      exact Nat.div_le_div
        (Nat.sub_le_sub_left (Nat.mul_le_mul_left (k - 1) hab) (L - 1)) hab (by omega)

end AllanTools

namespace AllanTools

theorem sliceStep_one (l : List ℚ) : sliceStep l 1 = l := by
  apply List.ext_getElem
  · simp [sliceStep, Nat.mod_one]
  · intro i h1 h2
    simp [sliceStep, Nat.mod_one, List.getElem?_eq_getElem h2]

theorem calc_adev_n_antitone_self (data : List ℚ) (a b : ℤ) (ha : 0 < a) (hab : a ≤ b) :
    calc_adev_n data b b.toNat ≤ calc_adev_n data a a.toNat := by
  have hat : 0 < a.toNat := by omega
  have hbt : 0 < b.toNat := by omega
  have habt : a.toNat ≤ b.toNat := by omega
  rw [calc_adev_n, calc_adev_n]
  simp only [sliceStep_length, List.length_drop, hat, hbt]
  rw [show ((2 : ℤ) * b).toNat = 2 * b.toNat from by omega,
    show ((2 : ℤ) * a).toNat = 2 * a.toNat from by omega]
  have g0 : (data.length + b.toNat - 1) / b.toNat ≤
      (data.length + a.toNat - 1) / a.toNat := by
    have h := ceil_sub_div_antitone data.length 0 a.toNat b.toNat hat habt
    simpa using h
  have g1 : (data.length - b.toNat + b.toNat - 1) / b.toNat ≤
      (data.length - a.toNat + a.toNat - 1) / a.toNat := by
    have h := ceil_sub_div_antitone data.length 1 a.toNat b.toNat hat habt
    simpa using h
  have g2 : (data.length - 2 * b.toNat + b.toNat - 1) / b.toNat ≤
      (data.length - 2 * a.toNat + a.toNat - 1) / a.toNat :=
    ceil_sub_div_antitone data.length 2 a.toNat b.toNat hat habt
  have hXY := min_le_min (min_le_min g0 g1) g2
  split_ifs <;> omega

theorem calc_adev_n_antitone_one (data : List ℚ) (a b : ℤ) (ha : 0 < a) (hab : a ≤ b) :
    calc_adev_n data b 1 ≤ calc_adev_n data a 1 := by
  rw [calc_adev_n, calc_adev_n]
  simp only [sliceStep_one, List.length_drop]
  have h2b : ((2 : ℤ) * b).toNat = 2 * b.toNat := by omega
  have h2a : ((2 : ℤ) * a).toNat = 2 * a.toNat := by omega
  rw [h2b, h2a]
  have hXY : min (min data.length (data.length - b.toNat)) (data.length - 2 * b.toNat) ≤
      min (min data.length (data.length - a.toNat)) (data.length - 2 * a.toNat) := by
    have habt : a.toNat ≤ b.toNat := by omega
    exact min_le_min (min_le_min le_rfl (by omega)) (by omega)
  split_ifs <;> omega

theorem calc_hdev_n_antitone_self (data : List ℚ) (a b : ℤ) (ha : 0 < a) (hab : a ≤ b) :
    calc_hdev_n data b b.toNat ≤ calc_hdev_n data a a.toNat := by
  have hat : 0 < a.toNat := by omega
  have hbt : 0 < b.toNat := by omega
  have habt : a.toNat ≤ b.toNat := by omega
  rw [calc_hdev_n, calc_hdev_n, calc_hdev_n0, calc_hdev_n0]
  simp only [sliceStep_length, List.length_drop, hat, hbt]
  rw [show ((2 : ℤ) * b).toNat = 2 * b.toNat from by omega,
    show ((2 : ℤ) * a).toNat = 2 * a.toNat from by omega,
    show ((3 : ℤ) * b).toNat = 3 * b.toNat from by omega,
    show ((3 : ℤ) * a).toNat = 3 * a.toNat from by omega]
  have g0 : (data.length + b.toNat - 1) / b.toNat ≤
      (data.length + a.toNat - 1) / a.toNat := by
    have h := ceil_sub_div_antitone data.length 0 a.toNat b.toNat hat habt
    simpa using h
  have g1 : (data.length - b.toNat + b.toNat - 1) / b.toNat ≤
      (data.length - a.toNat + a.toNat - 1) / a.toNat := by
    have h := ceil_sub_div_antitone data.length 1 a.toNat b.toNat hat habt
    simpa using h
  have g2 : (data.length - 2 * b.toNat + b.toNat - 1) / b.toNat ≤
      (data.length - 2 * a.toNat + a.toNat - 1) / a.toNat :=
    ceil_sub_div_antitone data.length 2 a.toNat b.toNat hat habt
  have g3 : (data.length - 3 * b.toNat + b.toNat - 1) / b.toNat ≤
      (data.length - 3 * a.toNat + a.toNat - 1) / a.toNat :=
    ceil_sub_div_antitone data.length 3 a.toNat b.toNat hat habt
  have hXY := min_le_min (min_le_min (min_le_min g0 g1) g2) g3
  split_ifs <;> omega

theorem calc_hdev_n_antitone_one (data : List ℚ) (a b : ℤ) (ha : 0 < a) (hab : a ≤ b) :
    calc_hdev_n data b 1 ≤ calc_hdev_n data a 1 := by
  rw [calc_hdev_n, calc_hdev_n, calc_hdev_n0, calc_hdev_n0]
  simp only [sliceStep_one, List.length_drop]
  rw [show ((2 : ℤ) * b).toNat = 2 * b.toNat from by omega,
    show ((2 : ℤ) * a).toNat = 2 * a.toNat from by omega,
    show ((3 : ℤ) * b).toNat = 3 * b.toNat from by omega,
    show ((3 : ℤ) * a).toNat = 3 * a.toNat from by omega]
  have habt : a.toNat ≤ b.toNat := by omega
  have hXY : min (min (min data.length (data.length - b.toNat))
        (data.length - 2 * b.toNat)) (data.length - 3 * b.toNat) ≤
      min (min (min data.length (data.length - a.toNat))
        (data.length - 2 * a.toNat)) (data.length - 3 * a.toNat) :=
    min_le_min (min_le_min (min_le_min le_rfl (by omega)) (by omega)) (by omega)
  split_ifs <;> omega

end AllanTools

namespace AllanTools

theorem tau_m_ok_m (data : List ℚ) (rate : ℚ) (taus : List ℚ)
    (d : List ℚ) (m : List ℤ) (tu : List ℚ)
    (h : tau_m data rate taus = .ok (d, m, tu)) :
    d = data ∧ m = tau_m_ms data rate taus := by
  by_cases hr : rate = 0
  · rw [tau_m, if_pos hr] at h
    cases h
  · rw [tau_m_eq_ok data rate taus hr] at h
    simp only [Except.ok.injEq, Prod.mk.injEq] at h
    exact ⟨h.1.symm, h.2.1.symm⟩

theorem ns_pairwise_ge (m : List ℤ) (hm : List.Pairwise (· < ·) m)
    (hpos : ∀ x ∈ m, 0 < x) (g : ℤ → ℕ)
    (hanti : ∀ a b, 0 < a → a ≤ b → g b ≤ g a)
    (mask : List Bool) :
    (applyMask mask (m.map fun mj => ((g mj : ℕ) : ℚ))).Pairwise (· ≥ ·) := by
  apply List.Pairwise.sublist (applyMask_sublist mask _)
  rw [List.pairwise_map]
  refine hm.imp_of_mem ?_
  intro a b ha hb hlt
  exact_mod_cast hanti a b (hpos a ha) hlt.le

theorem adev_phase_ns_pairwise (sq : ℚ → ℚ) (data : List ℚ) (rate : ℚ)
    (taus : List ℚ) (r : Result) (h : adev_phase sq data rate taus = .ok r) :
    r.2.2.2.Pairwise (· ≥ ·) := by
  obtain ⟨⟨d, m, tu⟩, htau, rfl⟩ := except_map_ok _ _ _ h
  obtain ⟨hd, rfl⟩ := tau_m_ok_m data rate taus d m tu htau
  subst hd
  show (applyMask _ _).Pairwise (· ≥ ·)
  simp only [List.map_map]
  exact ns_pairwise_ge _ (pairwise_npUnique _)
    (fun x hx => (mem_tau_m_ms d rate taus x hx).1)
    (fun mj => calc_adev_n d mj mj.toNat)
    (fun a b ha hab => calc_adev_n_antitone_self d a b ha hab) _

end AllanTools

namespace AllanTools

theorem oadev_phase_ns_pairwise (sq : ℚ → ℚ) (data : List ℚ) (rate : ℚ)
    (taus : List ℚ) (r : Result) (h : oadev_phase sq data rate taus = .ok r) :
    r.2.2.2.Pairwise (· ≥ ·) := by
  obtain ⟨⟨d, m, tu⟩, htau, rfl⟩ := except_map_ok _ _ _ h
  obtain ⟨hd, rfl⟩ := tau_m_ok_m data rate taus d m tu htau
  subst hd
  show (applyMask _ _).Pairwise (· ≥ ·)
  simp only [List.map_map]
  exact ns_pairwise_ge _ (pairwise_npUnique _)
    (fun x hx => (mem_tau_m_ms d rate taus x hx).1)
    (fun mj => calc_adev_n d mj 1)
    (fun a b ha hab => calc_adev_n_antitone_one d a b ha hab) _

theorem hdev_phase_ns_pairwise (sq : ℚ → ℚ) (data : List ℚ) (rate : ℚ)
    (taus : List ℚ) (r : Result) (h : hdev_phase sq data rate taus = .ok r) :
    r.2.2.2.Pairwise (· ≥ ·) := by
  obtain ⟨⟨d, m, tu⟩, htau, rfl⟩ := except_map_ok _ _ _ h
  obtain ⟨hd, rfl⟩ := tau_m_ok_m data rate taus d m tu htau
  subst hd
  show (applyMask _ _).Pairwise (· ≥ ·)
  simp only [List.map_map]
  exact ns_pairwise_ge _ (pairwise_npUnique _)
    (fun x hx => (mem_tau_m_ms d rate taus x hx).1)
    (fun mj => calc_hdev_n d mj mj.toNat)
    (fun a b ha hab => calc_hdev_n_antitone_self d a b ha hab) _

theorem ohdev_phase_ns_pairwise (sq : ℚ → ℚ) (data : List ℚ) (rate : ℚ)
    (taus : List ℚ) (r : Result) (h : ohdev_phase sq data rate taus = .ok r) :
    r.2.2.2.Pairwise (· ≥ ·) := by
  obtain ⟨⟨d, m, tu⟩, htau, rfl⟩ := except_map_ok _ _ _ h
  obtain ⟨hd, rfl⟩ := tau_m_ok_m data rate taus d m tu htau
  subst hd
  show (applyMask _ _).Pairwise (· ≥ ·)
  simp only [List.map_map]
  exact ns_pairwise_ge _ (pairwise_npUnique _)
    (fun x hx => (mem_tau_m_ms d rate taus x hx).1)
    (fun mj => calc_hdev_n d mj 1)
    (fun a b ha hab => calc_hdev_n_antitone_one d a b ha hab) _

/-- C8: for ADEV, OADEV, HDEV and OHDEV on a fixed phase series, the per-`m`
sample count is non-increasing in the averaging factor `m` (for positive
`m ≤ m'`), and consequently the `ns` array of every successful run — indexed
by the strictly increasing selected `m` values — is non-increasing. -/
theorem sample_count_nonincreasing (sq : ℚ → ℚ) (data : List ℚ) (rate : ℚ)
    (taus : List ℚ) :
    (∀ a b : ℤ, 0 < a → a ≤ b →
      calc_adev_n data b b.toNat ≤ calc_adev_n data a a.toNat) ∧
    (∀ a b : ℤ, 0 < a → a ≤ b → calc_adev_n data b 1 ≤ calc_adev_n data a 1) ∧
    (∀ a b : ℤ, 0 < a → a ≤ b →
      calc_hdev_n data b b.toNat ≤ calc_hdev_n data a a.toNat) ∧
    (∀ a b : ℤ, 0 < a → a ≤ b → calc_hdev_n data b 1 ≤ calc_hdev_n data a 1) ∧
    (∀ r, adev_phase sq data rate taus = .ok r → r.2.2.2.Pairwise (· ≥ ·)) ∧
    (∀ r, oadev_phase sq data rate taus = .ok r → r.2.2.2.Pairwise (· ≥ ·)) ∧
    (∀ r, hdev_phase sq data rate taus = .ok r → r.2.2.2.Pairwise (· ≥ ·)) ∧
    (∀ r, ohdev_phase sq data rate taus = .ok r → r.2.2.2.Pairwise (· ≥ ·)) :=
  ⟨fun a b ha hab => calc_adev_n_antitone_self data a b ha hab,
   fun a b ha hab => calc_adev_n_antitone_one data a b ha hab,
   fun a b ha hab => calc_hdev_n_antitone_self data a b ha hab,
   fun a b ha hab => calc_hdev_n_antitone_one data a b ha hab,
   fun r => adev_phase_ns_pairwise sq data rate taus r,
   fun r => oadev_phase_ns_pairwise sq data rate taus r,
   fun r => hdev_phase_ns_pairwise sq data rate taus r,
   fun r => ohdev_phase_ns_pairwise sq data rate taus r⟩

end AllanTools

namespace AllanTools

theorem adev_phase_id_zeros8 :
    adev_phase id [0,0,0,0,0,0,0,0] 1 [1,2] = .ok ([1,2], [0,0], [0,0], [6,2]) := by
  have htau : tau_m [0,0,0,0,0,0,0,0] 1 [1,2] =
      .ok ([0,0,0,0,0,0,0,0], [1,2], [1,2]) := by
    norm_num [tau_m, npUnique, insertSortedUnique]
  have hs1 : calc_adev_s [0,0,0,0,0,0,0,0] 1 ((1:ℤ).toNat) = 0 := by
    simp [calc_adev_s, calc_adev_n, sliceStep, zipWith3, List.range_succ, List.getD]
  have hs2 : calc_adev_s [0,0,0,0,0,0,0,0] 2 ((2:ℤ).toNat) = 0 := by
    simp [calc_adev_s, calc_adev_n, sliceStep, zipWith3, List.range_succ, List.getD]
  have hc1 : calc_adev_phase id [0,0,0,0,0,0,0,0] 1 1 ((1:ℤ).toNat) = (0, 0, 6) := by
    rw [calc_adev_phase_zero_s id rfl _ 1 1 _ hs1]
    rfl
  have hc2 : calc_adev_phase id [0,0,0,0,0,0,0,0] 1 2 ((2:ℤ).toNat) = (0, 0, 2) := by
    rw [calc_adev_phase_zero_s id rfl _ 1 2 _ hs2]
    rfl
  rw [adev_phase, htau]
  simp only [Except.map, List.map_cons, List.map_nil, hc1, hc2]
  norm_num [remove_small_ns, applyMask]

theorem oadev_phase_id_zeros8 :
    oadev_phase id [0,0,0,0,0,0,0,0] 1 [1,2] = .ok ([1,2], [0,0], [0,0], [6,4]) := by
  have htau : tau_m [0,0,0,0,0,0,0,0] 1 [1,2] =
      .ok ([0,0,0,0,0,0,0,0], [1,2], [1,2]) := by
    norm_num [tau_m, npUnique, insertSortedUnique]
  have hs1 : calc_adev_s [0,0,0,0,0,0,0,0] 1 1 = 0 := by
    simp [calc_adev_s, calc_adev_n, sliceStep, zipWith3, List.range_succ, List.getD]
  have hs2 : calc_adev_s [0,0,0,0,0,0,0,0] 2 1 = 0 := by
    simp [calc_adev_s, calc_adev_n, sliceStep, zipWith3, List.range_succ, List.getD]
  have hc1 : calc_adev_phase id [0,0,0,0,0,0,0,0] 1 1 1 = (0, 0, 6) := by
    rw [calc_adev_phase_zero_s id rfl _ 1 1 _ hs1]
    rfl
  have hc2 : calc_adev_phase id [0,0,0,0,0,0,0,0] 1 2 1 = (0, 0, 4) := by
    rw [calc_adev_phase_zero_s id rfl _ 1 2 _ hs2]
    rfl
  rw [oadev_phase, htau]
  simp only [Except.map, List.map_cons, List.map_nil, hc1, hc2]
  norm_num [remove_small_ns, applyMask]

theorem hdev_phase_id_zeros8 :
    hdev_phase id [0,0,0,0,0,0,0,0] 1 [1,2] = .ok ([1], [0], [0], [5]) := by
  have htau : tau_m [0,0,0,0,0,0,0,0] 1 [1,2] =
      .ok ([0,0,0,0,0,0,0,0], [1,2], [1,2]) := by
    norm_num [tau_m, npUnique, insertSortedUnique]
  have hs1 : calc_hdev_s [0,0,0,0,0,0,0,0] 1 ((1:ℤ).toNat) = 0 := by
    simp [calc_hdev_s, calc_hdev_n0, sliceStep, zipWith4, List.range_succ, List.getD]
  have hs2 : calc_hdev_s [0,0,0,0,0,0,0,0] 2 ((2:ℤ).toNat) = 0 := by
    simp [calc_hdev_s, calc_hdev_n0, sliceStep, zipWith4, List.range_succ, List.getD]
  have hc1 : calc_hdev_phase id [0,0,0,0,0,0,0,0] 1 1 ((1:ℤ).toNat) = (0, 0, 5) := by
    rw [calc_hdev_phase_zero_s id rfl _ 1 1 _ hs1]
    rfl
  have hc2 : calc_hdev_phase id [0,0,0,0,0,0,0,0] 1 2 ((2:ℤ).toNat) = (0, 0, 1) := by
    rw [calc_hdev_phase_zero_s id rfl _ 1 2 _ hs2]
    rfl
  rw [hdev_phase, htau]
  simp only [Except.map, List.map_cons, List.map_nil, hc1, hc2]
  norm_num [remove_small_ns, applyMask]

theorem ohdev_phase_id_zeros8 :
    ohdev_phase id [0,0,0,0,0,0,0,0] 1 [1,2] = .ok ([1,2], [0,0], [0,0], [5,2]) := by
  have htau : tau_m [0,0,0,0,0,0,0,0] 1 [1,2] =
      .ok ([0,0,0,0,0,0,0,0], [1,2], [1,2]) := by
    norm_num [tau_m, npUnique, insertSortedUnique]
  have hs1 : calc_hdev_s [0,0,0,0,0,0,0,0] 1 1 = 0 := by
    simp [calc_hdev_s, calc_hdev_n0, sliceStep, zipWith4, List.range_succ, List.getD]
  have hs2 : calc_hdev_s [0,0,0,0,0,0,0,0] 2 1 = 0 := by
    simp [calc_hdev_s, calc_hdev_n0, sliceStep, zipWith4, List.range_succ, List.getD]
  have hc1 : calc_hdev_phase id [0,0,0,0,0,0,0,0] 1 1 1 = (0, 0, 5) := by
    rw [calc_hdev_phase_zero_s id rfl _ 1 1 _ hs1]
    rfl
  have hc2 : calc_hdev_phase id [0,0,0,0,0,0,0,0] 1 2 1 = (0, 0, 2) := by
    rw [calc_hdev_phase_zero_s id rfl _ 1 2 _ hs2]
    rfl
  rw [ohdev_phase, htau]
  simp only [Except.map, List.map_cons, List.map_nil, hc1, hc2]
  norm_num [remove_small_ns, applyMask]

/-- Witness for C8 at the zero series of length 8 with `taus = [1,2]`. -/
theorem sample_count_nonincreasing_witness :
    calc_adev_n [0,0,0,0,0,0,0,0] 2 ((2:ℤ).toNat) ≤
      calc_adev_n [0,0,0,0,0,0,0,0] 1 ((1:ℤ).toNat) ∧
    ([6, 2] : List ℚ).Pairwise (· ≥ ·) ∧ ([6, 4] : List ℚ).Pairwise (· ≥ ·) ∧
    ([5] : List ℚ).Pairwise (· ≥ ·) ∧ ([5, 2] : List ℚ).Pairwise (· ≥ ·) := by
  have h := sample_count_nonincreasing id [0,0,0,0,0,0,0,0] 1 [1,2]
  exact ⟨h.1 1 2 (by norm_num) (by norm_num),
    h.2.2.2.2.1 _ adev_phase_id_zeros8,
    h.2.2.2.2.2.1 _ oadev_phase_id_zeros8,
    h.2.2.2.2.2.2.1 _ hdev_phase_id_zeros8,
    h.2.2.2.2.2.2.2 _ ohdev_phase_id_zeros8⟩

end AllanTools
